import Mathlib

/-!
Verification development for the node-coal cache-aside layer.

The definitions below are a shallow embedding of src/lib/index.js (the
current implementation; the second source file is a superseded legacy
variant of the same module).  JavaScript values that can flow through the
module are modelled by the inductive type JSVal; JavaScript numbers are
modelled as integers (floating point is outside the model), and machine
time is modelled in integer milliseconds.  The redis client is modelled as
an association-list store of string entries with an optional expiry in
milliseconds, plus an environment that decides, per call, the outcome of
each store round trip (errors and lock contention from other processes).
Callback chains are sequentialised: each operation is a function from the
store and the environment to an outcome (resolved value, rejected error,
or never-settling promise) and the resulting store.

Error-name mapping used throughout: the TypeError values thrown by the
validation code correspond to the InvalidArgumentError of the design
document, error.RedisError to StoreError, and error.AcquireError to
AcquireTimeoutError.
-/

namespace Coal

/-- Model of the JavaScript values handled by the module: undefined, null,
booleans, numbers (restricted to integers), strings, arrays and plain
objects (association lists of string keys). -/
inductive JSVal where
  | jsUndef
  | jsNull
  | jsBool (b : Bool)
  | jsInt (n : Int)
  | jsStr (s : String)
  | jsArr (elems : List JSVal)
  | jsObj (fields : List (String × JSVal))

/-- Test for the undefined value. -/
def isUndef : JSVal → Bool
  | .jsUndef => true
  | _ => false

/-- Test for the null value. -/
def isNull : JSVal → Bool
  | .jsNull => true
  | _ => false

/-- The JavaScript typeof operator on the modelled values.  Note that
typeof null is the string object, as in JavaScript. -/
def jsTypeof : JSVal → String
  | .jsUndef => "undefined"
  | .jsNull => "object"
  | .jsBool _ => "boolean"
  | .jsInt _ => "number"
  | .jsStr _ => "string"
  | .jsArr _ => "object"
  | .jsObj _ => "object"

/-- Decimal digit character for a value below ten. -/
def digitChar (n : Nat) : Char := Char.ofNat (48 + n)

/-- Fuel-driven accumulator loop producing the decimal digits of a natural
number, most significant first.  The fuel makes the recursion structural;
fuel at least n is always enough since n is divided by ten each step. -/
def natDigitsGo : Nat → Nat → List Char → List Char
  | 0, _, acc => acc
  | fuel + 1, n, acc =>
    if n = 0 then acc else natDigitsGo fuel (n / 10) (digitChar (n % 10) :: acc)

/-- Decimal digit list of a natural number, as produced by the JavaScript
number-to-string conversion for non-negative integers. -/
def natDigits (n : Nat) : List Char :=
  if n = 0 then ['0'] else natDigitsGo n n []

/-- Character list of the JavaScript decimal rendering of an integer. -/
def intChars (n : Int) : List Char :=
  if n < 0 then '-' :: natDigits n.natAbs else natDigits n.toNat

/-- JavaScript decimal rendering of an integer (Number.prototype.toString). -/
def intRepr (n : Int) : String := ⟨intChars n⟩

/-- The String(x) conversion used by value.toString() in set (line 138) and
by the implicit argument coercion of JSON.parse in get (line 111).  The
array and object arms are unreachable in the module because every use is
guarded by a typeof object test. -/
def jsToString : JSVal → String
  | .jsStr s => s
  | .jsInt n => intRepr n
  | .jsBool true => "true"
  | .jsBool false => "false"
  | .jsUndef => "undefined"
  | .jsNull => "null"
  | .jsArr _ => ""
  | .jsObj _ => ""

/-- Lowercase hexadecimal digit for a value below sixteen. -/
def hexDigit (n : Nat) : Char :=
  if n < 10 then Char.ofNat (48 + n) else Char.ofNat (87 + n)

/-- JSON.stringify escaping of one string character: quote, backslash and
the named control escapes, a u-escape for the remaining control
characters, and every other character verbatim. -/
def escChar (c : Char) : List Char :=
  if c = '"' then ['\\', '"']
  else if c = '\\' then ['\\', '\\']
  else if c = '\x08' then ['\\', 'b']
  else if c = '\x09' then ['\\', 't']
  else if c = '\x0a' then ['\\', 'n']
  else if c = '\x0c' then ['\\', 'f']
  else if c = '\x0d' then ['\\', 'r']
  else if c.toNat < 32 then
    ['\\', 'u', '0', '0', hexDigit (c.toNat / 16), hexDigit (c.toNat % 16)]
  else [c]

/-- JSON.stringify escaping of a whole string body. -/
def escBody : List Char → List Char
  | [] => []
  | c :: t => escChar c ++ escBody t

mutual
/-- Character list produced by JSON.stringify on a value.  Undefined at
top level is unreachable through encode (set validates the value first). -/
def printVal : JSVal → List Char
  | .jsUndef => []
  | .jsNull => ['n', 'u', 'l', 'l']
  | .jsBool true => ['t', 'r', 'u', 'e']
  | .jsBool false => ['f', 'a', 'l', 's', 'e']
  | .jsInt n => intChars n
  | .jsStr s => '"' :: escBody s.data ++ ['"']
  | .jsArr xs => '[' :: printElems xs ++ [']']
  | .jsObj fs => '\x7b' :: printFields fs ++ ['\x7d']
/-- Comma-separated array elements; JSON.stringify renders undefined array
entries as null. -/
def printElems : List JSVal → List Char
  | [] => []
  | [v] => if isUndef v then ['n', 'u', 'l', 'l'] else printVal v
  | v :: t =>
    (if isUndef v then ['n', 'u', 'l', 'l'] else printVal v) ++ ',' :: printElems t
/-- Comma-separated object members; JSON.stringify omits members whose
value is undefined. -/
def printFields : List (String × JSVal) → List Char
  | [] => []
  | (k, v) :: t =>
    if isUndef v then printFields t
    else
      '"' :: escBody k.data ++ '"' :: ':' :: printVal v ++
        (if t.any (fun p => !isUndef p.2) then ',' :: printFields t else printFields t)
end

/-- JSON.stringify as used by set on values of typeof object (line 133). -/
def stringify (v : JSVal) : String := ⟨printVal v⟩

/-- Keys of an object are pairwise distinct (JavaScript objects cannot
carry duplicate keys, so only such object values model real inputs). -/
def nodupKeys : List (String × JSVal) → Bool
  | [] => true
  | (k, _) :: t => !t.any (fun p => p.1 = k) && nodupKeys t

mutual
/-- JSON-serializable values of the model: no undefined anywhere and no
duplicate object keys.  Cyclic structures, the other stringify failure
mode, cannot be expressed by an inductive value at all. -/
def serializable : JSVal → Bool
  | .jsUndef => false
  | .jsNull => true
  | .jsBool _ => true
  | .jsInt _ => true
  | .jsStr _ => true
  | .jsArr xs => serializableL xs
  | .jsObj fs => nodupKeys fs && serializableF fs
/-- Serializability of every array element. -/
def serializableL : List JSVal → Bool
  | [] => true
  | v :: t => serializable v && serializableL t
/-- Serializability of every object member value. -/
def serializableF : List (String × JSVal) → Bool
  | [] => true
  | (_, v) :: t => serializable v && serializableF t
end

mutual
/-- Structural size of a value, used as a parser fuel measure.  Character
contents do not count, only tree structure. -/
def msize : JSVal → Nat
  | .jsArr xs => 1 + msizeL xs
  | .jsObj fs => 1 + msizeF fs
  | _ => 1
/-- Structural size of an element list. -/
def msizeL : List JSVal → Nat
  | [] => 0
  | v :: t => 1 + msize v + msizeL t
/-- Structural size of a member list. -/
def msizeF : List (String × JSVal) → Nat
  | [] => 0
  | (_, v) :: t => 1 + msize v + msizeF t
end

/-- JSON insignificant whitespace. -/
def isWs (c : Char) : Bool := c = ' ' || c = '\t' || c = '\n' || c = '\r'

/-- Skip insignificant whitespace. -/
def skipWs : List Char → List Char
  | [] => []
  | c :: t => if isWs c then skipWs t else c :: t

/-- Decimal digit test (same characters as Char.isDigit, phrased on code
points). -/
def isDigitChar (c : Char) : Bool := 48 ≤ c.toNat && c.toNat ≤ 57

/-- Whether a character list starts with a decimal digit. -/
def digitHead : List Char → Bool
  | [] => false
  | c :: _ => isDigitChar c

/-- Numeric value of a hexadecimal digit character. -/
def hexVal (c : Char) : Option Nat :=
  if 48 ≤ c.toNat && c.toNat ≤ 57 then some (c.toNat - 48)
  else if 97 ≤ c.toNat && c.toNat ≤ 102 then some (c.toNat - 87)
  else if 65 ≤ c.toNat && c.toNat ≤ 70 then some (c.toNat - 55)
  else none

/-- Value of a digit string under a left fold, used to specify the digit
parser. -/
def digitsVal (l : List Char) (acc : Nat) : Nat :=
  l.foldl (fun a c => a * 10 + (c.toNat - 48)) acc

/-- Greedy run of decimal digits with an accumulator. -/
def parseDigits : List Char → Nat → Nat × List Char
  | [], acc => (acc, [])
  | c :: t, acc =>
    if isDigitChar c then parseDigits t (acc * 10 + (c.toNat - 48))
    else (acc, c :: t)

/-- JSON integer literal after an optional sign: a lone zero, or a nonzero
leading digit followed by a greedy digit run (fractions and exponents are
outside the integer model). -/
def parseNat : List Char → Option (Nat × List Char)
  | [] => none
  | c :: t =>
    if c = '0' then some (0, t)
    else if isDigitChar c then some (parseDigits t (c.toNat - 48))
    else none

/-- JSON string body after the opening quote, returning the decoded
characters and the input after the closing quote.  Raw control characters
are rejected, as by JSON.parse.  The Nat argument is structural fuel;
every step consumes at least one input character, so fuel one beyond the
input length (as supplied at both call sites) is always enough. -/
def parseStr : Nat → List Char → Option (List Char × List Char)
  | 0, _ => none
  | _ + 1, [] => none
  | fuel + 1, c :: t =>
    if c = '"' then some ([], t)
    else if c = '\\' then
      match t with
      | [] => none
      | e :: t2 =>
        if e = '"' then (parseStr fuel t2).map fun p => ('"' :: p.1, p.2)
        else if e = '\\' then (parseStr fuel t2).map fun p => ('\\' :: p.1, p.2)
        else if e = '/' then (parseStr fuel t2).map fun p => ('/' :: p.1, p.2)
        else if e = 'b' then (parseStr fuel t2).map fun p => ('\x08' :: p.1, p.2)
        else if e = 'f' then (parseStr fuel t2).map fun p => ('\x0c' :: p.1, p.2)
        else if e = 'n' then (parseStr fuel t2).map fun p => ('\x0a' :: p.1, p.2)
        else if e = 'r' then (parseStr fuel t2).map fun p => ('\x0d' :: p.1, p.2)
        else if e = 't' then (parseStr fuel t2).map fun p => ('\x09' :: p.1, p.2)
        else if e = 'u' then
          match t2 with
          | h1 :: h2 :: h3 :: h4 :: t3 =>
            match hexVal h1, hexVal h2, hexVal h3, hexVal h4 with
            | some a, some b, some c3, some d =>
              (parseStr fuel t3).map fun p =>
                (Char.ofNat (((a * 16 + b) * 16 + c3) * 16 + d) :: p.1, p.2)
            | _, _, _, _ => none
          | _ => none
        else none
    else if c.toNat < 32 then none
    else (parseStr fuel t).map fun p => (c :: p.1, p.2)

mutual
/-- Fuel-driven recursive-descent JSON value parser (JSON.parse on the
modelled fragment; numbers are integers, so inputs with fractions or
exponents fail and fall back to the raw string in decode). -/
def parseVal : Nat → List Char → Option (JSVal × List Char)
  | 0, _ => none
  | fuel + 1, s =>
    match skipWs s with
    | [] => none
    | c :: t =>
      if c = 'n' then
        match t with
        | 'u' :: 'l' :: 'l' :: r => some (.jsNull, r)
        | _ => none
      else if c = 't' then
        match t with
        | 'r' :: 'u' :: 'e' :: r => some (.jsBool true, r)
        | _ => none
      else if c = 'f' then
        match t with
        | 'a' :: 'l' :: 's' :: 'e' :: r => some (.jsBool false, r)
        | _ => none
      else if c = '"' then
        match parseStr (t.length + 1) t with
        | some (cs, r) => some (.jsStr ⟨cs⟩, r)
        | none => none
      else if c = '[' then
        match skipWs t with
        | [] => none
        | c2 :: r =>
          if c2 = ']' then some (.jsArr [], r)
          else
            match parseElems fuel (c2 :: r) with
            | some (vs, r2) => some (.jsArr vs, r2)
            | none => none
      else if c = '\x7b' then
        match skipWs t with
        | [] => none
        | c2 :: r =>
          if c2 = '\x7d' then some (.jsObj [], r)
          else
            match parseFields fuel (c2 :: r) with
            | some (fs, r2) => some (.jsObj fs, r2)
            | none => none
      else if c = '-' then
        match parseNat t with
        | some (n, r) => some (.jsInt (-(n : Int)), r)
        | none => none
      else if isDigitChar c then
        match parseNat (c :: t) with
        | some (n, r) => some (.jsInt (n : Int), r)
        | none => none
      else none
/-- Nonempty comma-separated element list up to the closing bracket. -/
def parseElems : Nat → List Char → Option (List JSVal × List Char)
  | 0, _ => none
  | fuel + 1, s =>
    match parseVal fuel s with
    | none => none
    | some (v, r) =>
      match skipWs r with
      | [] => none
      | c :: r2 =>
        if c = ',' then
          match parseElems fuel r2 with
          | some (vs, r3) => some (v :: vs, r3)
          | none => none
        else if c = ']' then some ([v], r2)
        else none
/-- Nonempty comma-separated member list up to the closing brace. -/
def parseFields : Nat → List Char → Option (List (String × JSVal) × List Char)
  | 0, _ => none
  | fuel + 1, s =>
    match skipWs s with
    | [] => none
    | c :: t =>
      if c = '"' then
        match parseStr (t.length + 1) t with
        | none => none
        | some (k, r) =>
          match skipWs r with
          | [] => none
          | c2 :: r2 =>
            if c2 = ':' then
              match parseVal fuel r2 with
              | none => none
              | some (v, r3) =>
                match skipWs r3 with
                | [] => none
                | c3 :: r4 =>
                  if c3 = ',' then
                    match parseFields fuel r4 with
                    | some (fs, r5) => some ((⟨k⟩, v) :: fs, r5)
                    | none => none
                  else if c3 = '\x7d' then some ([(⟨k⟩, v)], r4)
                  else none
            else none
      else none
end

/-- JSON.parse on a whole string: parse one value, allow surrounding
whitespace, require full consumption.  The fuel bound suffices for every
printed value (established below) since each recursion layer consumes
input. -/
def jsonParse (s : String) : Option JSVal :=
  match parseVal (2 * s.length + 2) s.data with
  | some (v, r) =>
    match skipWs r with
    | [] => some v
    | _ :: _ => none
  | none => none

/-- Value-to-stored-string conversion of set (lines 131-139): values of
typeof object go through JSON.stringify, everything else through
toString. -/
def encode (v : JSVal) : String :=
  if jsTypeof v = "object" then stringify v else jsToString v

/-- The JSON-parse-with-fallback step of get (lines 108-115) restricted to
a stored string: attempt JSON.parse and keep the raw string when the parse
fails. -/
def decode (s : String) : JSVal :=
  match jsonParse s with
  | some v => v
  | none => .jsStr s

/-- The decode step of get exactly as written (lines 108-115): applied to
the resolved result, skipping null and values of typeof object; JSON.parse
coerces a non-string argument to a string first; a parse failure keeps the
original value. -/
def decodeStep (v : JSVal) : JSVal :=
  if isNull v = false ∧ jsTypeof v ≠ "object" then
    match jsonParse (jsToString v) with
    | some r => r
    | none => v
  else v

/-- One stored record: the value string and an optional expiry (PX
argument) in milliseconds. -/
structure Entry where
  val : String
  px : Option Int
deriving DecidableEq

/-- The redis keyspace, modelled as an association list. -/
abbrev Store := List (String × Entry)

/-- Lookup of the full entry at a key. -/
def storeGetE (st : Store) (k : String) : Option Entry :=
  (st.find? (fun p => p.1 = k)).map (fun p => p.2)

/-- GET: the stored string at a key, if present. -/
def storeGet (st : Store) (k : String) : Option String :=
  (storeGetE st k).map (fun e => e.val)

/-- Remove a key from the store. -/
def removeKey (st : Store) (k : String) : Store :=
  st.filter (fun p => p.1 ≠ k)

/-- SET with optional PX expiry: overwrite the key with the new entry. -/
def storeSet (st : Store) (k v : String) (px : Option Int) : Store :=
  (k, ⟨v, px⟩) :: removeKey st k

/-- DEL: remove the key and report how many keys were removed. -/
def storeDel (st : Store) (k : String) : Store × Nat :=
  (removeKey st k, if (storeGetE st k).isSome then 1 else 0)

/-- Error outcomes of the module.  typeError models the synchronously
thrown TypeError of argument validation (InvalidArgumentError of the
design document); redisErr models error.RedisError (StoreError); acquireErr
models error.AcquireError (AcquireTimeoutError); updateErr is an error
produced by the caller-supplied update callback, propagated unwrapped. -/
inductive CoalErr where
  | typeError (arg : String)
  | redisErr
  | acquireErr
  | updateErr (msg : String)
deriving DecidableEq

/-- Lock statistics resolved by set: attempt count and elapsed time at
acquisition (elapsed modelled in integer milliseconds). -/
structure LockStats where
  attempts : Nat
  elapsed : Int
deriving DecidableEq

/-- One tick of the acquisition spinlock as seen by this caller: the
elapsed wall-clock milliseconds measured at the start of the tick, whether
another process currently holds the lock key (so the NX set finds the key
present), and whether this NX round trip fails with a store error. -/
structure Attempt where
  elapsed : Int
  lockBusy : Bool
  errAt : Bool
deriving DecidableEq

/-- Environment of one set call: the schedule of spinlock ticks, whether
the cache-entry write fails, and whether the lock delete fails. -/
structure SetEnv where
  trace : List Attempt
  writeErr : Bool
  delErr : Bool

/-- Environment of one get call: whether the initial GET round trip fails,
and the environment of the delegated set on the repopulation path. -/
structure GetEnv where
  getErr : Bool
  setEnv : SetEnv

/-- Outcome of the lock-acquisition promise inside set. -/
inductive AcqRes where
  | acquired (st : Store) (stats : LockStats)
  | timedOut
  | redisFail
  | exhausted

/-- Outcome of a set call: resolved with lock statistics, rejected with an
error (validation throws are folded into the same constructor), or still
spinning when the modelled tick schedule ran out. -/
inductive SetResult where
  | ok (st : Store) (stats : LockStats)
  | err (st : Store) (e : CoalErr)
  | spin (st : Store)

/-- Outcome of a get call; unsettled models the promise that never
settles because the delegated set rejected and line 100 attaches no
rejection handler. -/
inductive GetResult where
  | ok (st : Store) (v : JSVal)
  | err (st : Store) (e : CoalErr)
  | unsettled (st : Store)

/-- Module default for the acquisition timeout, milliseconds (line 20). -/
def defaultTimeout : Int := 100

/-- Module default for the cache TTL, milliseconds (line 21). -/
def defaultTTL : Int := 30000

/-- Effective TTL resolution, line 141 (and line 81 in get):
ttl = ttl * 1000 || defaultTTL.  An absent ttl gives NaN, which is falsy;
a zero product is falsy too, so ttl = 0 falls back to the default. -/
def resolveTtl : Option Int → Int
  | none => defaultTTL
  | some t => if t * 1000 = 0 then defaultTTL else t * 1000

/-- Effective timeout resolution, line 142 (and line 82 in get):
timeout = timeout || (ttl > 0 ? ttl / 10 : defaultTimeout), with zero
falsy. -/
def resolveTimeout (tmo : Option Int) (t : Int) : Int :=
  match tmo with
  | none => if t > 0 then t / 10 else defaultTimeout
  | some x => if x = 0 then (if t > 0 then t / 10 else defaultTimeout) else x

/-- String content of a validated key argument. -/
def keyStr : JSVal → String
  | .jsStr s => s
  | _ => ""

/-- The spinlock acquisition loop of set (lines 148-196), sequentialised
over the tick schedule.  Each tick first checks the elapsed time against
the timeout (a strict comparison, before any store round trip), then
issues SET lock 1 NX PX (timeout + 500); the NX set succeeds exactly when
no other process holds the lock and the lock key is absent from the
store. -/
def runAcquire (tmo : Int) (lock : String) (st : Store) :
    List Attempt → Nat → AcqRes
  | [], _ => .exhausted
  | a :: rest, n =>
    if a.elapsed > tmo then .timedOut
    else if a.errAt then .redisFail
    else if a.lockBusy || (storeGet st lock).isSome then
      runAcquire tmo lock st rest (n + 1)
    else .acquired (storeSet st lock "1" (some (tmo + 500))) ⟨n + 1, a.elapsed⟩

/-- Coal.prototype.set (lines 122-225): validate the key and value, encode
the value, resolve ttl and timeout, spin for the lock, then write the
cache entry (with PX ttl when ttl is positive, without expiry otherwise)
and delete the lock key.  A store failure of the cache-entry write rejects
at line 201 before the lock delete is reached, so the lock key stays. -/
def setOp (pre : String) (key value : JSVal) (ttl tmo : Option Int)
    (env : SetEnv) (st : Store) : SetResult :=
  if jsTypeof key ≠ "string" then .err st (.typeError "key")
  else if jsTypeof value = "undefined" then .err st (.typeError "value")
  else
    let v := encode value
    let t := resolveTtl ttl
    let tm := resolveTimeout tmo t
    let k := pre ++ keyStr key
    let lock := pre ++ "lock:" ++ keyStr key
    match runAcquire tm lock st env.trace 0 with
    | .timedOut => .err st .acquireErr
    | .redisFail => .err st .redisErr
    | .exhausted => .spin st
    | .acquired st1 stats =>
      if env.writeErr then .err st1 .redisErr
      else
        let st2 := if t > 0 then storeSet st1 k v (some t) else storeSet st1 k v none
        if env.delErr then .err st2 .redisErr
        else .ok (storeDel st2 lock).1 stats

/-- Coal.prototype.get (lines 67-120): validate the arguments, resolve ttl
(multiplied by 1000) and timeout, read the cache entry; on a hit resolve
the stored string, on a miss with an update callback run it and delegate
to set with the already-resolved ttl and timeout, on a miss without an
update callback resolve null.  The final then-step applies decodeStep to
the resolved value.  The update argument models the callback slot: some u
is a function whose single callback invocation yields u, none is an
omitted callback (the code then also requires ttl to be absent). -/
def getOp (pre : String) (key : JSVal) (update : Option (Except String JSVal))
    (ttl tmo : Option Int) (env : GetEnv) (st : Store) : GetResult :=
  if jsTypeof key ≠ "string" then .err st (.typeError "key")
  else if update.isNone && ttl.isSome then .err st (.typeError "update")
  else
    let t := resolveTtl ttl
    let tm := resolveTimeout tmo t
    let k := pre ++ keyStr key
    if env.getErr then .err st .redisErr
    else
      match storeGet st k, update with
      | none, some (.error e) => .err st (.updateErr e)
      | none, some (.ok r) =>
        match setOp pre key r (some t) (some tm) env.setEnv st with
        | .ok st2 _ => .ok st2 (decodeStep r)
        | .err st2 _ => .unsettled st2
        | .spin st2 => .unsettled st2
      | none, none => .ok st (decodeStep .jsNull)
      | some s, _ => .ok st (decodeStep (.jsStr s))

/-- Coal.prototype.del (lines 227-239): delete the prefixed cache key and
resolve with the deletion count. -/
def delOp (pre key : String) (st : Store) : Store × Nat :=
  storeDel st (pre ++ key)

/-- A benign set environment: the first tick happens immediately with no
contention and no store failures. -/
def envOk : SetEnv := ⟨[⟨0, false, false⟩], false, false⟩

/-! ## Store lemmas -/

theorem storeGetE_removeKey (st : Store) (k k2 : String) :
    storeGetE (removeKey st k) k2 = if k2 = k then none else storeGetE st k2 := by
  induction st with
  | nil => simp [removeKey, storeGetE]
  | cons p t ih =>
    by_cases hpk : p.1 = k
    · have h1 : removeKey (p :: t) k = removeKey t k := by
        simp [removeKey, List.filter_cons, hpk]
      by_cases h2 : k2 = k
      · rw [h1, ih, if_pos h2, if_pos h2]
      · have h3 : storeGetE (p :: t) k2 = storeGetE t k2 := by
          have : p.1 ≠ k2 := by rw [hpk]; exact fun h => h2 h.symm
          simp [storeGetE, List.find?_cons_of_neg, this]
        rw [h1, ih, if_neg h2, if_neg h2, h3]
    · have h1 : removeKey (p :: t) k = p :: removeKey t k := by
        simp [removeKey, List.filter_cons, hpk]
      by_cases hp2 : p.1 = k2
      · have hk2 : k2 ≠ k := fun h => hpk (hp2.trans h)
        rw [h1, if_neg hk2]
        simp [storeGetE, List.find?_cons_of_pos, hp2]
      · have h3 : storeGetE (p :: removeKey t k) k2 = storeGetE (removeKey t k) k2 := by
          simp [storeGetE, List.find?_cons_of_neg, hp2]
        have h4 : storeGetE (p :: t) k2 = storeGetE t k2 := by
          simp [storeGetE, List.find?_cons_of_neg, hp2]
        rw [h1, h3, ih, h4]

theorem storeGet_removeKey_self (st : Store) (k : String) :
    storeGet (removeKey st k) k = none := by
  simp [storeGet, storeGetE_removeKey]

/-- The lock key of a cache key never coincides with the cache key itself:
the two derived keys differ in length. -/
theorem lockKey_ne_cacheKey (pre a : String) : pre ++ "lock:" ++ a ≠ pre ++ a := by
  intro h
  have hl := congrArg String.length h
  simp [String.length_append] at hl
  have : ("lock:" : String).length = 5 := rfl
  omega

/-! ## Claim C9: del removes only the cache entry -/

/-- C9: del deletes only the cache entry at prefix plus key, resolving with
the store deletion count (zero when absent); every other key, in
particular the derived lock key, is untouched. -/
theorem c9_del_only_cache_entry (pre key : String) (st : Store) :
    (delOp pre key st).2 = (if (storeGetE st (pre ++ key)).isSome then 1 else 0) ∧
    (∀ k2 : String, storeGetE (delOp pre key st).1 k2 =
      if k2 = pre ++ key then none else storeGetE st k2) ∧
    storeGetE (delOp pre key st).1 (pre ++ "lock:" ++ key) =
      storeGetE st (pre ++ "lock:" ++ key) := by
  refine ⟨rfl, fun k2 => ?_, ?_⟩
  · exact storeGetE_removeKey st (pre ++ key) k2
  · rw [show (delOp pre key st).1 = removeKey st (pre ++ key) from rfl,
      storeGetE_removeKey, if_neg (lockKey_ne_cacheKey pre key)]

/-! ## Claim C8: argument validation -/

/-- C8 counterexample: the empty-string key passes validation in both get
and set, so the claim that a non-empty string is required is false; set
with the empty key proceeds to the store and succeeds, and get with the
empty key resolves the miss sentinel. -/
theorem c8_empty_key_accepted :
    setOp "coal:" (.jsStr "") (.jsStr "v") none none envOk [] =
      .ok [("coal:", ⟨"v", some 30000⟩)] ⟨1, 0⟩ ∧
    getOp "coal:" (.jsStr "") none none none ⟨false, envOk⟩ [] = .ok [] .jsNull :=
  ⟨rfl, rfl⟩

/-- C8 amended: when the key is not a string, get and set fail with the
TypeError of the validation code (InvalidArgumentError), and when the set
value is undefined set fails the same way; the store and environment are
arbitrary and returned untouched, so the failure precedes any store
round trip.  Any string key, including the empty string, is accepted. -/
theorem c8_validation_before_io (pre : String) (key : JSVal)
    (h : jsTypeof key ≠ "string") (ks : String) (u : Option (Except String JSVal))
    (ttl tmo : Option Int) (genv : GetEnv) (senv : SetEnv) (st : Store) :
    getOp pre key u ttl tmo genv st = .err st (.typeError "key") ∧
    setOp pre key (.jsStr "v") ttl tmo senv st = .err st (.typeError "key") ∧
    setOp pre (.jsStr ks) .jsUndef ttl tmo senv st = .err st (.typeError "value") := by
  refine ⟨?_, ?_, ?_⟩
  · simp [getOp, h]
  · simp [setOp, h]
  · simp [setOp, jsTypeof]

/-- C8 witness: a numeric key is rejected by get and set, and an undefined
value is rejected by set, without touching the store. -/
theorem c8_validation_before_io_witness :
    getOp "coal:" (.jsInt 0) none none none ⟨false, envOk⟩ [] =
      .err [] (.typeError "key") ∧
    setOp "coal:" (.jsInt 0) (.jsStr "v") none none envOk [] =
      .err [] (.typeError "key") ∧
    setOp "coal:" (.jsStr "k") .jsUndef none none envOk [] =
      .err [] (.typeError "value") :=
  c8_validation_before_io "coal:" (.jsInt 0) (by simp [jsTypeof]) "k" none none none
    ⟨false, envOk⟩ envOk []

/-! ## Claim C1: lock release on exit paths of set -/

/-- C1 counterexample: a set whose cache-entry write fails with a store
error settles by rejection while the lock token it wrote is still in the
store; the lock key is not deleted on this exit path. -/
theorem c1_lock_left_after_write_failure :
    setOp "coal:" (.jsStr "k") (.jsStr "v") none none
        ⟨[⟨0, false, false⟩], true, false⟩ [] =
      .err [("coal:lock:k", ⟨"1", some 3500⟩)] .redisErr ∧
    storeGet [("coal:lock:k", (⟨"1", some 3500⟩ : Entry))] "coal:lock:k" = some "1" :=
  ⟨rfl, rfl⟩

/-- C1 amended: the lock key is deleted before the call settles on every
successful exit of set; on the exit path where the cache-entry write
fails with a store error the call rejects without deleting the lock,
which then only disappears through its own expiry of timeout plus 500
milliseconds. -/
theorem c1_lock_released_on_success (pre ks : String) (value : JSVal)
    (ttl tmo : Option Int) (env : SetEnv) (st st2 : Store) (stats : LockStats)
    (hok : setOp pre (.jsStr ks) value ttl tmo env st = .ok st2 stats) :
    storeGet st2 (pre ++ "lock:" ++ ks) = none := by
  simp only [setOp] at hok
  split at hok
  · cases hok
  · split at hok
    · cases hok
    · split at hok
      · cases hok
      · cases hok
      · cases hok
      · split at hok
        · cases hok
        · split at hok
          · cases hok
          · injection hok with h1 h2
            rw [← h1]
            exact storeGet_removeKey_self _ _

/-- C1 witness: a concrete successful set leaves no lock token behind. -/
theorem c1_lock_released_on_success_witness :
    storeGet [("coal:k", (⟨"v", some 30000⟩ : Entry))] "coal:lock:k" = none :=
  c1_lock_released_on_success "coal:" "k" (.jsStr "v") none none envOk []
    [("coal:k", ⟨"v", some 30000⟩)] ⟨1, 0⟩ rfl

/-! ## Claim C2: acquisition timeout -/

/-- Spinning against a busy lock: once a tick observes an elapsed time
strictly above the timeout, the loop stops with no store write, provided
every earlier tick was a contended error-free attempt within the
timeout. -/
theorem runAcquire_timedOut (tm : Int) (lock : String) (st : Store) (a : Attempt)
    (after : List Attempt) (ha : a.elapsed > tm) :
    ∀ (before : List Attempt) (n : Nat),
      (∀ b ∈ before, b.elapsed ≤ tm ∧ b.errAt = false ∧ b.lockBusy = true) →
      runAcquire tm lock st (before ++ a :: after) n = .timedOut := by
  intro before
  induction before with
  | nil => intro n _; simp [runAcquire, ha]
  | cons b bs ih =>
    intro n hall
    obtain ⟨h1, h2, h3⟩ := hall b (List.mem_cons_self b bs)
    have hlt : ¬b.elapsed > tm := by omega
    simp only [List.cons_append, runAcquire, hlt, h2, h3]
    simpa using ih (n + 1) (fun x hx => hall x (List.mem_cons_of_mem b hx))

/-- C2: when the elapsed wall-clock time exceeds the timeout before any
attempt succeeds (every earlier tick being a contended attempt within the
timeout), set stops retrying and rejects with the AcquireError of the
module (AcquireTimeoutError); the store is returned exactly as it was, so
the lock key is untouched and no cleanup write happens. -/
theorem c2_acquire_timeout (pre ks : String) (value : JSVal)
    (hv : jsTypeof value ≠ "undefined") (ttl tmo : Option Int) (wErr dErr : Bool)
    (st : Store) (before after : List Attempt) (a : Attempt)
    (hbusy : ∀ b ∈ before, b.elapsed ≤ resolveTimeout tmo (resolveTtl ttl) ∧
      b.errAt = false ∧ b.lockBusy = true)
    (ha : a.elapsed > resolveTimeout tmo (resolveTtl ttl)) :
    setOp pre (.jsStr ks) value ttl tmo ⟨before ++ a :: after, wErr, dErr⟩ st =
      .err st .acquireErr := by
  simp only [setOp]
  rw [if_neg (show ¬jsTypeof (.jsStr ks) ≠ "string" by simp [jsTypeof]), if_neg hv]
  rw [runAcquire_timedOut _ _ _ _ _ ha before 0 hbusy]

/-- C2 witness: a contended first tick followed by a tick past the
3000 millisecond resolved timeout makes set reject with AcquireError and
leave the empty store empty. -/
theorem c2_acquire_timeout_witness :
    setOp "coal:" (.jsStr "k") (.jsStr "v") none none
        ⟨[⟨0, true, false⟩, ⟨3001, false, false⟩], false, false⟩ [] =
      .err [] .acquireErr :=
  c2_acquire_timeout "coal:" "k" (.jsStr "v") (by simp [jsTypeof]) none none
    false false [] [⟨0, true, false⟩] [] ⟨3001, false, false⟩
    (by intro b hb; simp at hb; simp [hb, resolveTimeout, resolveTtl, defaultTTL])
    (by simp [resolveTimeout, resolveTtl, defaultTTL])

/-! ## Claim C3: effective TTL resolution in set -/

/-- C3 counterexample: set with ttl equal to zero does not store without
expiry; the zero product is falsy at line 141, so the entry is written
with the default expiry of 30000 milliseconds. -/
theorem c3_zero_ttl_stores_with_default_expiry :
    setOp "coal:" (.jsStr "k") (.jsStr "v") (some 0) none envOk [] =
      .ok [("coal:k", ⟨"v", some 30000⟩)] ⟨1, 0⟩ ∧
    storeGetE [("coal:k", (⟨"v", some 30000⟩ : Entry))] "coal:k" =
      some ⟨"v", some 30000⟩ :=
  ⟨rfl, rfl⟩

/-- C3 amended: a strictly negative ttl stores the entry without expiry,
while both ttl zero and an unspecified ttl resolve to the default TTL and
store the entry with a 30000 millisecond expiry. -/
theorem c3_ttl_resolution (t : Int) (ht : t < 0) :
    setOp "coal:" (.jsStr "k") (.jsStr "v") (some t) none envOk [] =
      .ok [("coal:k", ⟨"v", none⟩)] ⟨1, 0⟩ ∧
    setOp "coal:" (.jsStr "k") (.jsStr "v") (some 0) none envOk [] =
      .ok [("coal:k", ⟨"v", some 30000⟩)] ⟨1, 0⟩ ∧
    setOp "coal:" (.jsStr "k") (.jsStr "v") none none envOk [] =
      .ok [("coal:k", ⟨"v", some 30000⟩)] ⟨1, 0⟩ := by
  refine ⟨?_, rfl, rfl⟩
  have h1 : resolveTtl (some t) = t * 1000 := by
    rw [resolveTtl, if_neg (by omega)]
  have h2 : resolveTimeout none (t * 1000) = 100 := by
    rw [resolveTimeout, if_neg (by omega)]; rfl
  have h3 : ¬t * 1000 > 0 := by omega
  simp only [setOp, h1, h2, h3, envOk, if_false]
  rfl

/-- C3 witness: ttl minus one stores without expiry while ttl zero and an
absent ttl store with the default 30000 millisecond expiry. -/
theorem c3_ttl_resolution_witness :
    setOp "coal:" (.jsStr "k") (.jsStr "v") (some (-1)) none envOk [] =
      .ok [("coal:k", ⟨"v", none⟩)] ⟨1, 0⟩ ∧
    setOp "coal:" (.jsStr "k") (.jsStr "v") (some 0) none envOk [] =
      .ok [("coal:k", ⟨"v", some 30000⟩)] ⟨1, 0⟩ ∧
    setOp "coal:" (.jsStr "k") (.jsStr "v") none none envOk [] =
      .ok [("coal:k", ⟨"v", some 30000⟩)] ⟨1, 0⟩ :=
  c3_ttl_resolution (-1) (by norm_num)

/-! ## Claim C4: cache hits never recompute -/

/-- The decode step applied to a resolved stored string is exactly the
string decode of the codec. -/
theorem decodeStep_str (s : String) : decodeStep (.jsStr s) = decode s := rfl

/-- C4: when the store holds a value for the prefixed key, get resolves
with the decoded stored string, the store is unchanged, and the update
callback plays no role at all: the outcome is the same for every callback,
even one that would fail. -/
theorem c4_hit_never_recomputes (pre ks s : String) (u : Except String JSVal)
    (ttl tmo : Option Int) (senv : SetEnv) (st : Store)
    (hhit : storeGet st (pre ++ ks) = some s) :
    getOp pre (.jsStr ks) (some u) ttl tmo ⟨false, senv⟩ st = .ok st (decode s) := by
  simp only [getOp, keyStr]
  rw [if_neg (show ¬jsTypeof (.jsStr ks) ≠ "string" by simp [jsTypeof])]
  rw [if_neg (by simp)]
  rw [if_neg (by simp)]
  rw [hhit]
  rfl

/-- C4 witness: a hit on a stored numeric string is decoded and returned
even though the supplied callback would reject. -/
theorem c4_hit_never_recomputes_witness :
    getOp "coal:" (.jsStr "k") (some (.error "recompute must not run")) none none
        ⟨false, envOk⟩ [("coal:k", ⟨"7", some 5⟩)] =
      .ok [("coal:k", ⟨"7", some 5⟩)] (decode "7") :=
  c4_hit_never_recomputes "coal:" "k" "7" (.error "recompute must not run") none none
    envOk [("coal:k", ⟨"7", some 5⟩)] rfl

/-! ## Claim C5: value returned on the repopulation path -/

/-- C5 counterexample: on a miss with a recompute yielding the string 1,
get resolves with the number 1, not with the original string: the decode
step of lines 108 to 115 is applied to the recompute result as well. -/
theorem c5_recompute_result_redecoded :
    getOp "coal:" (.jsStr "k") (some (.ok (.jsStr "1"))) none none ⟨false, envOk⟩ [] =
      .ok [("coal:k", ⟨"1", some 30000000⟩)] (.jsInt 1) ∧
    JSVal.jsInt 1 ≠ JSVal.jsStr "1" :=
  ⟨rfl, fun h => JSVal.noConfusion h⟩

/-- C5 amended: on a miss where the recompute succeeds with r and the
delegated set succeeds, get resolves with decodeStep r: results of typeof
object (objects, arrays, null) are returned unchanged, while primitive
results are passed through the JSON-parse-with-fallback decode, so a
string that parses as JSON is altered. -/
theorem c5_miss_returns_decoded_result (r : JSVal)
    (hr : jsTypeof r ≠ "undefined") :
    getOp "coal:" (.jsStr "k") (some (.ok r)) none none ⟨false, envOk⟩ [] =
      .ok [("coal:k", ⟨encode r, some 30000000⟩)] (decodeStep r) ∧
    (jsTypeof r = "object" → decodeStep r = r) := by
  constructor
  · have hset : setOp "coal:" (.jsStr "k") r (some 30000) (some 3000) envOk [] =
        .ok [("coal:k", ⟨encode r, some 30000000⟩)] ⟨1, 0⟩ := by
      simp only [setOp]
      rw [if_neg (show ¬jsTypeof (.jsStr "k") ≠ "string" by simp [jsTypeof]),
        if_neg hr]
      rfl
    simp only [getOp]
    rw [if_neg (show ¬jsTypeof (.jsStr "k") ≠ "string" by simp [jsTypeof])]
    rw [if_neg (by simp)]
    rw [if_neg (by simp)]
    have hM : (match setOp "coal:" (.jsStr "k") r (some 30000) (some 3000) envOk [] with
        | SetResult.ok st3 _ => GetResult.ok st3 (decodeStep r)
        | SetResult.err st3 _ => GetResult.unsettled st3
        | SetResult.spin st3 => GetResult.unsettled st3) =
        .ok [("coal:k", ⟨encode r, some 30000000⟩)] (decodeStep r) := by
      rw [hset]
    exact hM
  · intro h
    rw [decodeStep, if_neg]
    simp [h]

/-- C5 witness: an empty object produced by the recompute is stored in its
JSON form and returned unchanged, since typeof object skips the decode
step. -/
theorem c5_miss_returns_decoded_result_witness :
    getOp "coal:" (.jsStr "k") (some (.ok (.jsObj []))) none none ⟨false, envOk⟩ [] =
      .ok [("coal:k", ⟨encode (.jsObj []), some 30000000⟩)] (decodeStep (.jsObj [])) ∧
    (jsTypeof (.jsObj []) = "object" → decodeStep (.jsObj []) = .jsObj []) :=
  c5_miss_returns_decoded_result (.jsObj []) (by simp [jsTypeof])

/-! ## Claim C7: decode totality and the miss sentinel -/

/-- C7: the decode step never fails: a stored string that does not parse
as JSON is returned unchanged, the null sentinel decodes to itself, and a
get miss with no recompute callback resolves with the null sentinel and
leaves the store unchanged. -/
theorem c7_decode_total_and_null_sentinel (s pre key : String) (st : Store)
    (senv : SetEnv) (hp : jsonParse s = none)
    (hmiss : storeGet st (pre ++ key) = none) :
    decode s = .jsStr s ∧ decodeStep .jsNull = .jsNull ∧
    getOp pre (.jsStr key) none none none ⟨false, senv⟩ st = .ok st .jsNull := by
  refine ⟨by rw [decode, hp], rfl, ?_⟩
  simp only [getOp, keyStr]
  rw [if_neg (show ¬jsTypeof (.jsStr key) ≠ "string" by simp [jsTypeof])]
  rw [if_neg (by simp)]
  rw [if_neg (by simp)]
  rw [hmiss]
  rfl

/-- C7 witness: the string consisting of one opening bracket is not JSON
and decodes to itself, and a miss on the empty store with no callback
resolves null. -/
theorem c7_decode_total_and_null_sentinel_witness :
    decode "[" = .jsStr "[" ∧ decodeStep .jsNull = .jsNull ∧
    getOp "coal:" (.jsStr "k") none none none ⟨false, envOk⟩ [] = .ok [] .jsNull :=
  c7_decode_total_and_null_sentinel "[" "coal:" "k" [] envOk rfl rfl

/-! ## Claim C10: double scaling of ttl on the repopulation path -/

/-- C10: a get miss repopulated with ttl t multiplies t by 1000 at line 81
and the delegated set multiplies it by 1000 again at line 141, so the
cache entry is stored with an expiry of t times one million milliseconds
instead of t seconds. -/
theorem c10_ttl_scaled_twice (t : Int) (ht : 0 < t) :
    getOp "coal:" (.jsStr "k") (some (.ok (.jsStr "v"))) (some t) none
        ⟨false, envOk⟩ [] =
      .ok [("coal:k", ⟨"v", some (t * 1000000)⟩)] (.jsStr "v") := by
  have h1 : resolveTtl (some t) = t * 1000 := by
    rw [resolveTtl, if_neg (by omega)]
  have h2 : resolveTimeout none (t * 1000) = t * 100 := by
    rw [resolveTimeout, if_pos (by omega)]
    have : t * 1000 = t * 100 * 10 := by ring
    rw [this, Int.mul_ediv_cancel _ (by norm_num)]
  have h3 : resolveTtl (some (t * 1000)) = t * 1000000 := by
    rw [resolveTtl, if_neg (by omega)]
    ring
  have h4 : resolveTimeout (some (t * 100)) (t * 1000000) = t * 100 := by
    rw [resolveTimeout, if_neg (by omega)]
  have h5 : ((⟨0, false, false⟩ : Attempt).elapsed > t * 100) = False :=
    eq_false (by show ¬(0 : Int) > t * 100; omega)
  have h6 : (t * 1000000 > 0) = True := eq_true (by omega)
  have hset : setOp "coal:" (.jsStr "k") (.jsStr "v") (some (t * 1000))
      (some (t * 100)) envOk [] =
      .ok [("coal:k", ⟨"v", some (t * 1000000)⟩)] ⟨1, 0⟩ := by
    simp only [setOp, h3, h4, envOk, keyStr]
    rw [if_neg (show ¬jsTypeof (.jsStr "k") ≠ "string" by simp [jsTypeof]),
      if_neg (by simp [jsTypeof])]
    simp only [runAcquire, h5, h6, if_true, if_false]
    rfl
  simp only [getOp, h1, h2, keyStr]
  rw [if_neg (show ¬jsTypeof (.jsStr "k") ≠ "string" by simp [jsTypeof])]
  rw [if_neg (by simp)]
  rw [if_neg (by simp)]
  have hM : (match setOp "coal:" (.jsStr "k") (.jsStr "v") (some (t * 1000))
      (some (t * 100)) envOk [] with
      | SetResult.ok st3 _ => GetResult.ok st3 (decodeStep (.jsStr "v"))
      | SetResult.err st3 _ => GetResult.unsettled st3
      | SetResult.spin st3 => GetResult.unsettled st3) =
      .ok [("coal:k", ⟨"v", some (t * 1000000)⟩)] (.jsStr "v") := by
    rw [hset]
    rfl
  exact hM

/-- C10 witness: repopulating with ttl one second stores an expiry of one
million milliseconds. -/
theorem c10_ttl_scaled_twice_witness :
    getOp "coal:" (.jsStr "k") (some (.ok (.jsStr "v"))) (some 1) none
        ⟨false, envOk⟩ [] =
      .ok [("coal:k", ⟨"v", some 1000000⟩)] (.jsStr "v") := by
  have h := c10_ttl_scaled_twice 1 (by norm_num)
  simpa using h

/-! ## Decimal digits: printing and parsing -/

theorem digitChar_toNat (n : Nat) (h : n < 10) : (digitChar n).toNat = 48 + n := by
  interval_cases n <;> rfl

theorem digitChar_isDigit (n : Nat) (h : n < 10) : isDigitChar (digitChar n) = true := by
  interval_cases n <;> rfl

theorem digitChar_ne_zeroChar (n : Nat) (h1 : 1 ≤ n) (h2 : n < 10) :
    digitChar n ≠ '0' := by
  interval_cases n <;> decide

theorem digit_cases (c : Char) (h : isDigitChar c = true) :
    c = '0' ∨ c = '1' ∨ c = '2' ∨ c = '3' ∨ c = '4' ∨
    c = '5' ∨ c = '6' ∨ c = '7' ∨ c = '8' ∨ c = '9' := by
  have he : Char.ofNat c.toNat = c := Char.ofNat_toNat c
  simp only [isDigitChar, Bool.and_eq_true, decide_eq_true_eq] at h
  obtain ⟨h1, h2⟩ := h
  set n := c.toNat with hn
  interval_cases n <;> rw [← he] <;> decide

theorem digit_head_ok (c : Char) (h : isDigitChar c = true) :
    isWs c = false ∧ c ≠ ']' := by
  rcases digit_cases c h with rfl | rfl | rfl | rfl | rfl | rfl | rfl | rfl | rfl | rfl <;>
    exact ⟨rfl, by decide⟩

theorem natDigitsGo_zero (fuel : Nat) (acc : List Char) :
    natDigitsGo fuel 0 acc = acc := by
  cases fuel <;> rfl

theorem natDigitsGo_append (fuel : Nat) :
    ∀ (n : Nat) (acc : List Char),
      natDigitsGo fuel n acc = natDigitsGo fuel n [] ++ acc := by
  induction fuel with
  | zero => intro n acc; rfl
  | succ f ih =>
    intro n acc
    by_cases hn : n = 0
    · subst hn; rw [natDigitsGo_zero, natDigitsGo_zero]; rfl
    · rw [natDigitsGo, if_neg hn, natDigitsGo, if_neg hn, ih (n / 10),
        ih (n / 10) [digitChar (n % 10)], List.append_assoc]
      rfl

theorem digitsVal_append (a b : List Char) (acc : Nat) :
    digitsVal (a ++ b) acc = digitsVal b (digitsVal a acc) := by
  simp [digitsVal, List.foldl_append]

theorem natDigitsGo_spec (fuel : Nat) :
    ∀ n : Nat, n ≠ 0 → n ≤ fuel →
      digitsVal (natDigitsGo fuel n []) 0 = n ∧
      (∀ c ∈ natDigitsGo fuel n [], isDigitChar c = true) ∧
      (∃ c t, natDigitsGo fuel n [] = c :: t ∧ isDigitChar c = true ∧ c ≠ '0') := by
  induction fuel with
  | zero => intro n hn hle; omega
  | succ f ih =>
    intro n hn hle
    rw [natDigitsGo, if_neg hn, natDigitsGo_append]
    by_cases h10 : n / 10 = 0
    · rw [h10, natDigitsGo_zero, List.nil_append]
      have hlt : n < 10 := by omega
      have hmod : n % 10 = n := Nat.mod_eq_of_lt hlt
      refine ⟨?_, ?_, digitChar (n % 10), [], rfl, digitChar_isDigit _ (by omega), ?_⟩
      · simp only [digitsVal, List.foldl, hmod]
        rw [digitChar_toNat n (by omega)]
        omega
      · intro c hc
        simp at hc
        rw [hc]
        exact digitChar_isDigit _ (by omega)
      · rw [hmod]
        exact digitChar_ne_zeroChar n (by omega) hlt
    · have hle2 : n / 10 ≤ f := by
        have := Nat.div_lt_self (Nat.pos_of_ne_zero hn) (by norm_num : 1 < 10)
        omega
      obtain ⟨hv, hall, c, t, heq, hcd, hc0⟩ := ih (n / 10) h10 hle2
      refine ⟨?_, ?_, c, t ++ [digitChar (n % 10)], by rw [heq]; rfl, hcd, hc0⟩
      · rw [digitsVal_append, hv]
        simp [digitsVal, digitChar_toNat (n % 10) (by omega)]
        omega
      · intro x hx
        rcases List.mem_append.1 hx with hx1 | hx2
        · exact hall x hx1
        · simp at hx2
          rw [hx2]
          exact digitChar_isDigit _ (by omega)

theorem natDigits_shape (m : Nat) :
    ∃ c t, natDigits m = c :: t ∧ isDigitChar c = true ∧ (m ≠ 0 → c ≠ '0') := by
  by_cases hm : m = 0
  · subst hm
    exact ⟨'0', [], rfl, rfl, fun h => absurd rfl h⟩
  · obtain ⟨_, _, c, t, heq, hcd, hc0⟩ := natDigitsGo_spec m m hm le_rfl
    rw [natDigits, if_neg hm]
    exact ⟨c, t, heq, hcd, fun _ => hc0⟩

theorem parseDigits_spec :
    ∀ (l rest : List Char) (acc : Nat),
      (∀ c ∈ l, isDigitChar c = true) → digitHead rest = false →
      parseDigits (l ++ rest) acc = (digitsVal l acc, rest) := by
  intro l
  induction l with
  | nil =>
    intro rest acc _ hr
    cases rest with
    | nil => rfl
    | cons c t =>
      have : isDigitChar c = false := hr
      simp [parseDigits, this, digitsVal]
  | cons c l2 ih =>
    intro rest acc hall hr
    have hc := hall c (List.mem_cons_self c l2)
    rw [List.cons_append, parseDigits, if_pos hc,
      ih rest _ (fun x hx => hall x (List.mem_cons_of_mem c hx)) hr]
    rfl

theorem parseNat_natDigits (m : Nat) (rest : List Char)
    (hrest : digitHead rest = false) :
    parseNat (natDigits m ++ rest) = some (m, rest) := by
  by_cases hm : m = 0
  · subst hm; rfl
  · have hval : digitsVal (natDigits m) 0 = m := by
      rw [natDigits, if_neg hm]
      exact (natDigitsGo_spec m m hm le_rfl).1
    have hall : ∀ c ∈ natDigits m, isDigitChar c = true := by
      rw [natDigits, if_neg hm]
      exact (natDigitsGo_spec m m hm le_rfl).2.1
    obtain ⟨c, t, heq, hcd, hc0⟩ := natDigits_shape m
    rw [heq, List.cons_append, parseNat, if_neg (hc0 hm), if_pos hcd,
      parseDigits_spec t rest _ (fun x hx => hall x (heq ▸ List.mem_cons_of_mem c hx)) hrest]
    have : digitsVal t (c.toNat - 48) = m := by
      rw [← hval, heq]
      simp [digitsVal, List.foldl]
    rw [this]

/-! ## String escaping: printing and parsing -/

theorem hexVal_hexDigit (k : Nat) (h : k < 16) : hexVal (hexDigit k) = some k := by
  interval_cases k <;> rfl

theorem skipWs_cons_of (c : Char) (l : List Char) (h : isWs c = false) :
    skipWs (c :: l) = c :: l := by
  simp [skipWs, h]

theorem parseStr_bs_quote (g : Nat) (X : List Char) :
    parseStr (g + 1) ('\\' :: '"' :: X) =
      (parseStr g X).map fun p => ('"' :: p.1, p.2) := rfl

theorem parseStr_bs_bs (g : Nat) (X : List Char) :
    parseStr (g + 1) ('\\' :: '\\' :: X) =
      (parseStr g X).map fun p => ('\\' :: p.1, p.2) := rfl

theorem parseStr_bs_b (g : Nat) (X : List Char) :
    parseStr (g + 1) ('\\' :: 'b' :: X) =
      (parseStr g X).map fun p => ('\x08' :: p.1, p.2) := rfl

theorem parseStr_bs_t (g : Nat) (X : List Char) :
    parseStr (g + 1) ('\\' :: 't' :: X) =
      (parseStr g X).map fun p => ('\x09' :: p.1, p.2) := rfl

theorem parseStr_bs_n (g : Nat) (X : List Char) :
    parseStr (g + 1) ('\\' :: 'n' :: X) =
      (parseStr g X).map fun p => ('\x0a' :: p.1, p.2) := rfl

theorem parseStr_bs_f (g : Nat) (X : List Char) :
    parseStr (g + 1) ('\\' :: 'f' :: X) =
      (parseStr g X).map fun p => ('\x0c' :: p.1, p.2) := rfl

theorem parseStr_bs_r (g : Nat) (X : List Char) :
    parseStr (g + 1) ('\\' :: 'r' :: X) =
      (parseStr g X).map fun p => ('\x0d' :: p.1, p.2) := rfl

theorem parseStr_bs_u (g : Nat) (h1 h2 h3 h4 : Char) (X : List Char) :
    parseStr (g + 1) ('\\' :: 'u' :: h1 :: h2 :: h3 :: h4 :: X) =
      (match hexVal h1, hexVal h2, hexVal h3, hexVal h4 with
       | some a, some b, some c3, some d =>
         (parseStr g X).map fun p =>
           (Char.ofNat (((a * 16 + b) * 16 + c3) * 16 + d) :: p.1, p.2)
       | _, _, _, _ => none) := rfl

theorem parseStr_plain (g : Nat) (c : Char) (X : List Char) (h1 : ¬c = '"')
    (h2 : ¬c = '\\') (h3 : ¬c.toNat < 32) :
    parseStr (g + 1) (c :: X) = (parseStr g X).map fun p => (c :: p.1, p.2) := by
  simp only [parseStr]
  rw [if_neg h1, if_neg h2, if_neg h3]

theorem parseStr_escBody : ∀ (cs : List Char) (fuel : Nat) (rest : List Char),
    (escBody cs).length < fuel →
    parseStr fuel (escBody cs ++ '"' :: rest) = some (cs, rest) := by
  intro cs
  induction cs with
  | nil =>
    intro fuel rest hf
    match fuel, hf with
    | f + 1, _ => rfl
  | cons c t ih =>
    intro fuel rest hf
    rw [show escBody (c :: t) = escChar c ++ escBody t from rfl] at hf ⊢
    rw [List.append_assoc]
    by_cases hq : c = '"'
    · subst hq
      rw [show escChar '"' = ['\\', '"'] from rfl] at hf ⊢
      simp only [List.length_append, List.length_cons] at hf
      match fuel, hf with
      | f + 1, hf =>
        rw [show (['\\', '"'] : List Char) ++ (escBody t ++ '"' :: rest) =
          '\\' :: '"' :: (escBody t ++ '"' :: rest) from rfl]
        rw [parseStr_bs_quote, ih f rest (by omega)]
        rfl
    by_cases hb : c = '\\'
    · subst hb
      rw [show escChar '\\' = ['\\', '\\'] from rfl] at hf ⊢
      simp only [List.length_append, List.length_cons] at hf
      match fuel, hf with
      | f + 1, hf =>
        rw [show (['\\', '\\'] : List Char) ++ (escBody t ++ '"' :: rest) =
          '\\' :: '\\' :: (escBody t ++ '"' :: rest) from rfl]
        rw [parseStr_bs_bs, ih f rest (by omega)]
        rfl
    by_cases h08 : c = '\x08'
    · subst h08
      rw [show escChar '\x08' = ['\\', 'b'] from rfl] at hf ⊢
      simp only [List.length_append, List.length_cons] at hf
      match fuel, hf with
      | f + 1, hf =>
        rw [show (['\\', 'b'] : List Char) ++ (escBody t ++ '"' :: rest) =
          '\\' :: 'b' :: (escBody t ++ '"' :: rest) from rfl]
        rw [parseStr_bs_b, ih f rest (by omega)]
        rfl
    by_cases h09 : c = '\x09'
    · subst h09
      rw [show escChar '\x09' = ['\\', 't'] from rfl] at hf ⊢
      simp only [List.length_append, List.length_cons] at hf
      match fuel, hf with
      | f + 1, hf =>
        rw [show (['\\', 't'] : List Char) ++ (escBody t ++ '"' :: rest) =
          '\\' :: 't' :: (escBody t ++ '"' :: rest) from rfl]
        rw [parseStr_bs_t, ih f rest (by omega)]
        rfl
    by_cases h0a : c = '\x0a'
    · subst h0a
      rw [show escChar '\x0a' = ['\\', 'n'] from rfl] at hf ⊢
      simp only [List.length_append, List.length_cons] at hf
      match fuel, hf with
      | f + 1, hf =>
        rw [show (['\\', 'n'] : List Char) ++ (escBody t ++ '"' :: rest) =
          '\\' :: 'n' :: (escBody t ++ '"' :: rest) from rfl]
        rw [parseStr_bs_n, ih f rest (by omega)]
        rfl
    by_cases h0c : c = '\x0c'
    · subst h0c
      rw [show escChar '\x0c' = ['\\', 'f'] from rfl] at hf ⊢
      simp only [List.length_append, List.length_cons] at hf
      match fuel, hf with
      | f + 1, hf =>
        rw [show (['\\', 'f'] : List Char) ++ (escBody t ++ '"' :: rest) =
          '\\' :: 'f' :: (escBody t ++ '"' :: rest) from rfl]
        rw [parseStr_bs_f, ih f rest (by omega)]
        rfl
    by_cases h0d : c = '\x0d'
    · subst h0d
      rw [show escChar '\x0d' = ['\\', 'r'] from rfl] at hf ⊢
      simp only [List.length_append, List.length_cons] at hf
      match fuel, hf with
      | f + 1, hf =>
        rw [show (['\\', 'r'] : List Char) ++ (escBody t ++ '"' :: rest) =
          '\\' :: 'r' :: (escBody t ++ '"' :: rest) from rfl]
        rw [parseStr_bs_r, ih f rest (by omega)]
        rfl
    by_cases h32 : c.toNat < 32
    · have hesc : escChar c =
          ['\\', 'u', '0', '0', hexDigit (c.toNat / 16), hexDigit (c.toNat % 16)] := by
        rw [escChar, if_neg hq, if_neg hb, if_neg h08, if_neg h09, if_neg h0a,
          if_neg h0c, if_neg h0d, if_pos h32]
      rw [hesc] at hf ⊢
      simp only [List.length_append, List.length_cons] at hf
      match fuel, hf with
      | f + 1, hf =>
        rw [show (['\\', 'u', '0', '0', hexDigit (c.toNat / 16),
            hexDigit (c.toNat % 16)] : List Char) ++ (escBody t ++ '"' :: rest) =
          '\\' :: 'u' :: '0' :: '0' :: hexDigit (c.toNat / 16) ::
            hexDigit (c.toNat % 16) :: (escBody t ++ '"' :: rest) from rfl]
        rw [parseStr_bs_u]
        rw [show hexVal '0' = some 0 from rfl,
          hexVal_hexDigit (c.toNat / 16) (by omega),
          hexVal_hexDigit (c.toNat % 16) (by omega)]
        rw [ih f rest (by omega)]
        have harith : ((0 * 16 + 0) * 16 + c.toNat / 16) * 16 + c.toNat % 16 =
            c.toNat := by omega
        show some (Char.ofNat (((0 * 16 + 0) * 16 + c.toNat / 16) * 16 +
          c.toNat % 16) :: t, rest) = some (c :: t, rest)
        rw [harith, Char.ofNat_toNat]
    · have hesc : escChar c = [c] := by
        rw [escChar, if_neg hq, if_neg hb, if_neg h08, if_neg h09, if_neg h0a,
          if_neg h0c, if_neg h0d, if_neg h32]
      rw [hesc] at hf ⊢
      simp only [List.length_append, List.length_cons] at hf
      match fuel, hf with
      | f + 1, hf =>
        rw [show ([c] : List Char) ++ (escBody t ++ '"' :: rest) =
          c :: (escBody t ++ '"' :: rest) from rfl]
        rw [parseStr_plain f c _ hq hb h32, ih f rest (by omega)]
        rfl

/-! ## Serializability and printed-shape lemmas -/

theorem serializable_not_undef (v : JSVal) (h : serializable v = true) :
    isUndef v = false := by
  cases v with
  | jsUndef => exact absurd h (by simp [serializable])
  | jsNull => rfl
  | jsBool b => rfl
  | jsInt n => rfl
  | jsStr s => rfl
  | jsArr xs => rfl
  | jsObj fs => rfl

theorem fields_any_not_undef (k2 : String) (v2 : JSVal) (t2 : List (String × JSVal))
    (h : serializable v2 = true) :
    ((k2, v2) :: t2).any (fun p => !isUndef p.2) = true := by
  simp [List.any_cons, serializable_not_undef v2 h]

theorem msize_pos (v : JSVal) : 1 ≤ msize v := by
  cases v <;> simp [msize]

theorem printVal_head (v : JSVal) (hs : serializable v = true) :
    ∃ c cs, printVal v = c :: cs ∧ isWs c = false ∧ c ≠ ']' := by
  cases v with
  | jsUndef => exact absurd hs (by simp [serializable])
  | jsNull => exact ⟨'n', _, rfl, rfl, by decide⟩
  | jsBool b =>
    cases b with
    | false => exact ⟨'f', _, rfl, rfl, by decide⟩
    | true => exact ⟨'t', _, rfl, rfl, by decide⟩
  | jsInt n =>
    rw [show printVal (.jsInt n) = intChars n from rfl, intChars]
    by_cases hn : n < 0
    · rw [if_pos hn]
      exact ⟨'-', _, rfl, rfl, by decide⟩
    · rw [if_neg hn]
      obtain ⟨c, t, heq, hcd, _⟩ := natDigits_shape n.toNat
      obtain ⟨hw, hne⟩ := digit_head_ok c hcd
      exact ⟨c, t, heq, hw, hne⟩
  | jsStr s => exact ⟨'"', _, rfl, rfl, by decide⟩
  | jsArr xs => exact ⟨'[', _, rfl, rfl, by decide⟩
  | jsObj fs => exact ⟨'\x7b', _, rfl, rfl, by decide⟩

/-! ## One-step equations of the value parser -/

theorem pv_null (g : Nat) (rest : List Char) :
    parseVal (g + 1) ('n' :: 'u' :: 'l' :: 'l' :: rest) = some (.jsNull, rest) := rfl

theorem pv_true (g : Nat) (rest : List Char) :
    parseVal (g + 1) ('t' :: 'r' :: 'u' :: 'e' :: rest) =
      some (.jsBool true, rest) := rfl

theorem pv_false (g : Nat) (rest : List Char) :
    parseVal (g + 1) ('f' :: 'a' :: 'l' :: 's' :: 'e' :: rest) =
      some (.jsBool false, rest) := rfl

theorem pv_quote (g : Nat) (X : List Char) :
    parseVal (g + 1) ('"' :: X) =
      (match parseStr (X.length + 1) X with
       | some (cs, r) => some (.jsStr ⟨cs⟩, r)
       | none => none) := rfl

theorem pv_lbrack (g : Nat) (X : List Char) :
    parseVal (g + 1) ('[' :: X) =
      (match skipWs X with
       | [] => none
       | c2 :: r =>
         if c2 = ']' then some (.jsArr [], r)
         else
           match parseElems g (c2 :: r) with
           | some (vs, r2) => some (.jsArr vs, r2)
           | none => none) := rfl

theorem pv_lbrace (g : Nat) (X : List Char) :
    parseVal (g + 1) ('\x7b' :: X) =
      (match skipWs X with
       | [] => none
       | c2 :: r =>
         if c2 = '\x7d' then some (.jsObj [], r)
         else
           match parseFields g (c2 :: r) with
           | some (fs, r2) => some (.jsObj fs, r2)
           | none => none) := rfl

theorem pv_minus (g : Nat) (X : List Char) :
    parseVal (g + 1) ('-' :: X) =
      (match parseNat X with
       | some (n, r) => some (.jsInt (-(n : Int)), r)
       | none => none) := rfl

theorem pv_digit (g : Nat) (c : Char) (X : List Char) (h : isDigitChar c = true) :
    parseVal (g + 1) (c :: X) =
      (match parseNat (c :: X) with
       | some (n, r) => some (.jsInt (n : Int), r)
       | none => none) := by
  rcases digit_cases c h with rfl | rfl | rfl | rfl | rfl | rfl | rfl | rfl | rfl | rfl <;>
    rfl

/-! ## The structural size is bounded by the printed length -/

theorem msize_le_bound : ∀ N : Nat,
    (∀ v : JSVal, serializable v = true → msize v ≤ N →
      msize v ≤ 2 * (printVal v).length) ∧
    (∀ xs : List JSVal, serializableL xs = true → msizeL xs ≤ N → xs ≠ [] →
      msizeL xs ≤ 2 * (printElems xs).length + 2) ∧
    (∀ fs : List (String × JSVal), serializableF fs = true → msizeF fs ≤ N →
      fs ≠ [] → msizeF fs ≤ 2 * (printFields fs).length + 2) := by
  intro N
  induction N with
  | zero =>
    refine ⟨fun v _ hm => absurd hm (by have := msize_pos v; omega), ?_, ?_⟩
    · intro xs _ hm hne
      cases xs with
      | nil => exact absurd rfl hne
      | cons x t =>
        have := msize_pos x
        simp only [msizeL] at hm
        omega
    · intro fs _ hm hne
      cases fs with
      | nil => exact absurd rfl hne
      | cons p t =>
        obtain ⟨k, v⟩ := p
        have := msize_pos v
        simp only [msizeF] at hm
        omega
  | succ N ih =>
    obtain ⟨ihV, ihL, ihF⟩ := ih
    refine ⟨?_, ?_, ?_⟩
    · intro v hs hm
      cases v with
      | jsUndef => exact absurd hs (by simp [serializable])
      | jsNull => simp [msize, printVal]
      | jsBool b => cases b <;> simp [msize, printVal]
      | jsInt n =>
        have h1 : 1 ≤ (printVal (.jsInt n)).length := by
          obtain ⟨c, cs, heq, _, _⟩ := printVal_head (.jsInt n) hs
          rw [heq]
          simp
        simp only [msize]
        omega
      | jsStr s =>
        simp only [msize, printVal, List.length_cons, List.length_append]
        omega
      | jsArr xs =>
        cases xs with
        | nil => simp [msize, msizeL, printVal, printElems]
        | cons x t =>
          have hsl : serializableL (x :: t) = true := hs
          have hm2 : msizeL (x :: t) ≤ N := by
            simp only [msize] at hm
            omega
          have hb := ihL (x :: t) hsl hm2 (by simp)
          simp only [msize, printVal, List.length_cons, List.length_append]
          omega
      | jsObj fs =>
        cases fs with
        | nil => simp [msize, msizeF, printVal, printFields]
        | cons p t =>
          have hsf : (nodupKeys (p :: t) && serializableF (p :: t)) = true := hs
          have hsf2 : serializableF (p :: t) = true := by
            simp only [Bool.and_eq_true] at hsf
            exact hsf.2
          have hm2 : msizeF (p :: t) ≤ N := by
            simp only [msize] at hm
            omega
          have hb := ihF (p :: t) hsf2 hm2 (by simp)
          simp only [msize, printVal, List.length_cons, List.length_append]
          omega
    · intro xs hs hm hne
      cases xs with
      | nil => exact absurd rfl hne
      | cons x t =>
        have hx : serializable x = true ∧ serializableL t = true := by
          simpa [serializableL, Bool.and_eq_true] using hs
        have hmx : msize x ≤ N ∧ msizeL t ≤ N := by
          simp only [msizeL] at hm
          constructor <;> omega
        have hvx := ihV x hx.1 hmx.1
        have hundef := serializable_not_undef x hx.1
        cases t with
        | nil =>
          rw [show printElems [x] =
            (if isUndef x then ['n', 'u', 'l', 'l'] else printVal x) from rfl]
          rw [hundef]
          simp only [msizeL, Bool.false_eq_true, if_false]
          omega
        | cons y t2 =>
          have hbt := ihL (y :: t2) hx.2 hmx.2 (by simp)
          rw [show printElems (x :: y :: t2) =
            (if isUndef x then ['n', 'u', 'l', 'l'] else printVal x) ++
              ',' :: printElems (y :: t2) from rfl]
          rw [hundef]
          simp only [msizeL] at hbt
          simp only [msizeL, Bool.false_eq_true, if_false, List.length_append,
            List.length_cons]
          omega
    · intro fs hs hm hne
      cases fs with
      | nil => exact absurd rfl hne
      | cons p t =>
        obtain ⟨k, v⟩ := p
        have hx : serializable v = true ∧ serializableF t = true := by
          simpa [serializableF, Bool.and_eq_true] using hs
        have hmx : msize v ≤ N ∧ msizeF t ≤ N := by
          simp only [msizeF] at hm
          constructor <;> omega
        have hvx := ihV v hx.1 hmx.1
        have hundef := serializable_not_undef v hx.1
        rw [show printFields ((k, v) :: t) =
          (if isUndef v then printFields t
           else '"' :: escBody k.data ++ '"' :: ':' :: printVal v ++
             (if t.any (fun p => !isUndef p.2) then ',' :: printFields t
              else printFields t)) from rfl]
        rw [hundef]
        cases t with
        | nil =>
          simp only [msizeF, Bool.false_eq_true, if_false, List.any_nil,
            List.length_append, List.length_cons]
          omega
        | cons q t2 =>
          obtain ⟨k2, v2⟩ := q
          have hv2 : serializable v2 = true := by
            have := hx.2
            simp only [serializableF, Bool.and_eq_true] at this
            exact this.1
          have hbt := ihF ((k2, v2) :: t2) hx.2 hmx.2 (by simp)
          rw [fields_any_not_undef k2 v2 t2 hv2]
          simp only [msizeF] at hbt
          simp only [msizeF, Bool.false_eq_true, if_false, if_true,
            List.length_append, List.length_cons]
          omega

/-! ## Parser step lemmas for composite values -/

theorem printElems_head (x : JSVal) (t : List JSVal) (hx : serializable x = true) :
    ∃ Y, printElems (x :: t) = printVal x ++ Y := by
  cases t with
  | nil =>
    refine ⟨[], ?_⟩
    rw [show printElems [x] =
      (if isUndef x then ['n', 'u', 'l', 'l'] else printVal x) from rfl,
      serializable_not_undef x hx]
    simp
  | cons y t2 =>
    refine ⟨',' :: printElems (y :: t2), ?_⟩
    rw [show printElems (x :: y :: t2) =
      (if isUndef x then ['n', 'u', 'l', 'l'] else printVal x) ++
        ',' :: printElems (y :: t2) from rfl,
      serializable_not_undef x hx]
    simp

theorem pv_lbrack_step (g : Nat) (c : Char) (L : List Char) (hw : isWs c = false)
    (hne : c ≠ ']') :
    parseVal (g + 1) ('[' :: c :: L) =
      (match parseElems g (c :: L) with
       | some (vs, r2) => some (.jsArr vs, r2)
       | none => none) := by
  rw [pv_lbrack, skipWs_cons_of c L hw]
  show (if c = ']' then some (JSVal.jsArr [], L)
    else
      match parseElems g (c :: L) with
      | some (vs, r2) => some (JSVal.jsArr vs, r2)
      | none => none) = _
  rw [if_neg hne]

theorem pv_lbrace_step (g : Nat) (L : List Char) :
    parseVal (g + 1) ('\x7b' :: '"' :: L) =
      (match parseFields g ('"' :: L) with
       | some (fs, r2) => some (.jsObj fs, r2)
       | none => none) := rfl

theorem pe_val (g : Nat) (s : List Char) (v : JSVal) (r : List Char)
    (hv : parseVal g s = some (v, r)) :
    parseElems (g + 1) s =
      (match skipWs r with
       | [] => none
       | c :: r2 =>
         if c = ',' then
           match parseElems g r2 with
           | some (vs, r3) => some (v :: vs, r3)
           | none => none
         else if c = ']' then some ([v], r2)
         else none) := by
  show (match parseVal g s with
    | none => none
    | some (v, r) =>
      match skipWs r with
      | [] => none
      | c :: r2 =>
        if c = ',' then
          match parseElems g r2 with
          | some (vs, r3) => some (v :: vs, r3)
          | none => none
        else if c = ']' then some ([v], r2)
        else none) = _
  rw [hv]

/-! ## The parser inverts the printer -/

theorem parseRound : ∀ fuel : Nat,
    (∀ (v : JSVal) (rest : List Char), serializable v = true →
      digitHead rest = false → msize v ≤ fuel →
      parseVal fuel (printVal v ++ rest) = some (v, rest)) ∧
    (∀ (xs : List JSVal) (rest : List Char), serializableL xs = true → xs ≠ [] →
      msizeL xs ≤ fuel →
      parseElems fuel (printElems xs ++ ']' :: rest) = some (xs, rest)) ∧
    (∀ (fs : List (String × JSVal)) (rest : List Char), serializableF fs = true →
      fs ≠ [] → msizeF fs ≤ fuel →
      parseFields fuel (printFields fs ++ '\x7d' :: rest) = some (fs, rest)) := by
  intro fuel
  induction fuel with
  | zero =>
    refine ⟨fun v _ _ _ hm => absurd hm (by have := msize_pos v; omega), ?_, ?_⟩
    · intro xs _ _ hne hm
      cases xs with
      | nil => exact absurd rfl hne
      | cons x t =>
        have := msize_pos x
        simp only [msizeL] at hm
        omega
    · intro fs _ _ hne hm
      cases fs with
      | nil => exact absurd rfl hne
      | cons p t =>
        obtain ⟨k, v⟩ := p
        have := msize_pos v
        simp only [msizeF] at hm
        omega
  | succ g ih =>
    obtain ⟨ihV, ihL, ihF⟩ := ih
    refine ⟨?_, ?_, ?_⟩
    · intro v rest hs hr hm
      cases v with
      | jsUndef => exact absurd hs (by simp [serializable])
      | jsNull => exact pv_null g rest
      | jsBool b =>
        cases b with
        | true => exact pv_true g rest
        | false => exact pv_false g rest
      | jsInt n =>
        rw [show printVal (.jsInt n) = intChars n from rfl, intChars]
        by_cases hn : n < 0
        · rw [if_pos hn]
          rw [show ('-' :: natDigits n.natAbs) ++ rest =
            '-' :: (natDigits n.natAbs ++ rest) from rfl]
          rw [pv_minus, parseNat_natDigits n.natAbs rest hr]
          show some (JSVal.jsInt (-(n.natAbs : Int)), rest) = some (.jsInt n, rest)
          have habs : -(n.natAbs : Int) = n := by omega
          rw [habs]
        · rw [if_neg hn]
          obtain ⟨c, t, heq, hcd, _⟩ := natDigits_shape n.toNat
          rw [heq]
          rw [show (c :: t) ++ rest = c :: (t ++ rest) from rfl]
          rw [pv_digit g c _ hcd]
          rw [show c :: (t ++ rest) = (c :: t) ++ rest from rfl, ← heq,
            parseNat_natDigits n.toNat rest hr]
          show some (JSVal.jsInt (n.toNat : Int), rest) = some (.jsInt n, rest)
          have habs : (n.toNat : Int) = n := by omega
          rw [habs]
      | jsStr s =>
        rw [show printVal (.jsStr s) ++ rest =
          '"' :: (escBody s.data ++ '"' :: rest) from by
            rw [show printVal (.jsStr s) = ('"' :: escBody s.data) ++ ['"'] from rfl]
            simp]
        rw [pv_quote]
        rw [parseStr_escBody s.data _ rest (by
          simp only [List.length_append, List.length_cons]
          omega)]
      | jsArr xs =>
        cases xs with
        | nil => exact rfl
        | cons x t =>
          have hsl : serializableL (x :: t) = true := hs
          have hx : serializable x = true := by
            have := hsl
            simp only [serializableL, Bool.and_eq_true] at this
            exact this.1
          have hm2 : msizeL (x :: t) ≤ g := by
            simp only [msize] at hm
            omega
          have hb := ihL (x :: t) rest hsl (by simp) hm2
          obtain ⟨c, cs, heq, hw, hne⟩ := printVal_head x hx
          obtain ⟨Y, hY⟩ := printElems_head x t hx
          have hshape : printElems (x :: t) ++ ']' :: rest =
              c :: (cs ++ (Y ++ ']' :: rest)) := by
            rw [hY, heq]
            simp
          have hshape2 : printVal (.jsArr (x :: t)) ++ rest =
              '[' :: (printElems (x :: t) ++ ']' :: rest) := by
            rw [show printVal (.jsArr (x :: t)) =
              ('[' :: printElems (x :: t)) ++ [']'] from rfl]
            simp
          rw [hshape2, hshape, pv_lbrack_step g c _ hw hne, ← hshape, hb]
      | jsObj fs =>
        cases fs with
        | nil => exact rfl
        | cons p t =>
          obtain ⟨k, v⟩ := p
          have hsf : (nodupKeys ((k, v) :: t) && serializableF ((k, v) :: t)) = true :=
            hs
          have hsf2 : serializableF ((k, v) :: t) = true := by
            simp only [Bool.and_eq_true] at hsf
            exact hsf.2
          have hv2 : serializable v = true := by
            have := hsf2
            simp only [serializableF, Bool.and_eq_true] at this
            exact this.1
          have hm2 : msizeF ((k, v) :: t) ≤ g := by
            simp only [msize] at hm
            omega
          have hb := ihF ((k, v) :: t) rest hsf2 (by simp) hm2
          have hpf : printFields ((k, v) :: t) =
              '"' :: (escBody k.data ++ '"' :: ':' :: printVal v ++
                (if t.any (fun p => !isUndef p.2) then ',' :: printFields t
                 else printFields t)) := by
            rw [show printFields ((k, v) :: t) =
              (if isUndef v then printFields t
               else ('"' :: escBody k.data) ++ '"' :: ':' :: printVal v ++
                 (if t.any (fun p => !isUndef p.2) then ',' :: printFields t
                  else printFields t)) from rfl,
              serializable_not_undef v hv2]
            simp
          have hshape : printFields ((k, v) :: t) ++ '\x7d' :: rest =
              '"' :: ((escBody k.data ++ '"' :: ':' :: printVal v ++
                (if t.any (fun p => !isUndef p.2) then ',' :: printFields t
                 else printFields t)) ++ '\x7d' :: rest) := by
            rw [hpf]
            simp
          have hshape2 : printVal (.jsObj ((k, v) :: t)) ++ rest =
              '\x7b' :: (printFields ((k, v) :: t) ++ '\x7d' :: rest) := by
            rw [show printVal (.jsObj ((k, v) :: t)) =
              ('\x7b' :: printFields ((k, v) :: t)) ++ ['\x7d'] from rfl]
            simp
          rw [hshape2, hshape, pv_lbrace_step, ← hshape, hb]
    · intro xs rest hs hne hm
      cases xs with
      | nil => exact absurd rfl hne
      | cons x t =>
        have hx : serializable x = true ∧ serializableL t = true := by
          simpa [serializableL, Bool.and_eq_true] using hs
        have hundef := serializable_not_undef x hx.1
        cases t with
        | nil =>
          have hp : printElems [x] = printVal x := by
            rw [show printElems [x] =
              (if isUndef x then ['n', 'u', 'l', 'l'] else printVal x) from rfl,
              hundef]
            simp
          rw [hp]
          have hmx : msize x ≤ g := by
            simp only [msizeL] at hm
            omega
          have hv := ihV x (']' :: rest) hx.1 rfl hmx
          rw [pe_val g _ x (']' :: rest) hv]
          rfl
        | cons y t2 =>
          have hp : printElems (x :: y :: t2) =
              printVal x ++ ',' :: printElems (y :: t2) := by
            rw [show printElems (x :: y :: t2) =
              (if isUndef x then ['n', 'u', 'l', 'l'] else printVal x) ++
                ',' :: printElems (y :: t2) from rfl, hundef]
            simp
          have hin : printElems (x :: y :: t2) ++ ']' :: rest =
              printVal x ++ ',' :: (printElems (y :: t2) ++ ']' :: rest) := by
            rw [hp]
            simp
          rw [hin]
          have hmx : msize x ≤ g := by
            simp only [msizeL] at hm
            omega
          have hm2 : msizeL (y :: t2) ≤ g := by
            simp only [msizeL] at hm ⊢
            omega
          have hv := ihV x (',' :: (printElems (y :: t2) ++ ']' :: rest)) hx.1 rfl hmx
          rw [pe_val g _ x _ hv]
          have hbt := ihL (y :: t2) rest hx.2 (by simp) hm2
          show (match parseElems g (printElems (y :: t2) ++ ']' :: rest) with
            | some (vs, r3) => some (x :: vs, r3)
            | none => none) = some (x :: y :: t2, rest)
          rw [hbt]
    · intro fs rest hs hne hm
      cases fs with
      | nil => exact absurd rfl hne
      | cons p t =>
        obtain ⟨k, v⟩ := p
        have hx : serializable v = true ∧ serializableF t = true := by
          simpa [serializableF, Bool.and_eq_true] using hs
        have hundef := serializable_not_undef v hx.1
        have hmx : msize v ≤ g := by
          simp only [msizeF] at hm
          omega
        have hpf : printFields ((k, v) :: t) =
            '"' :: (escBody k.data ++ '"' :: ':' :: printVal v ++
              (if t.any (fun p => !isUndef p.2) then ',' :: printFields t
               else printFields t)) := by
          rw [show printFields ((k, v) :: t) =
            (if isUndef v then printFields t
             else ('"' :: escBody k.data) ++ '"' :: ':' :: printVal v ++
               (if t.any (fun p => !isUndef p.2) then ',' :: printFields t
                else printFields t)) from rfl, hundef]
          simp
        cases t with
        | nil =>
          have hC : printFields ((k, v) :: [] : List (String × JSVal)) ++
              '\x7d' :: rest =
              '"' :: (escBody k.data ++ '"' ::
                (':' :: (printVal v ++ '\x7d' :: rest))) := by
            rw [hpf]
            simp [printFields]
          rw [hC]
          have hv := ihV v ('\x7d' :: rest) hx.1 rfl hmx
          show (match parseStr ((escBody k.data ++ '"' ::
              (':' :: (printVal v ++ '\x7d' :: rest))).length + 1)
              (escBody k.data ++ '"' :: (':' :: (printVal v ++ '\x7d' :: rest))) with
            | none => none
            | some (kk, r) =>
              match skipWs r with
              | [] => none
              | c2 :: r2 =>
                if c2 = ':' then
                  match parseVal g r2 with
                  | none => none
                  | some (v2, r3) =>
                    match skipWs r3 with
                    | [] => none
                    | c3 :: r4 =>
                      if c3 = ',' then
                        match parseFields g r4 with
                        | some (fs2, r5) => some ((⟨kk⟩, v2) :: fs2, r5)
                        | none => none
                      else if c3 = '\x7d' then some ([(⟨kk⟩, v2)], r4)
                      else none
                else none) = some ([(k, v)], rest)
          rw [parseStr_escBody k.data _ _ (by
            simp only [List.length_append, List.length_cons]
            omega)]
          show (match parseVal g (printVal v ++ '\x7d' :: rest) with
            | none => none
            | some (v2, r3) =>
              match skipWs r3 with
              | [] => none
              | c3 :: r4 =>
                if c3 = ',' then
                  match parseFields g r4 with
                  | some (fs2, r5) => some ((⟨k.data⟩, v2) :: fs2, r5)
                  | none => none
                else if c3 = '\x7d' then some ([(⟨k.data⟩, v2)], r4)
                else none) = some ([(k, v)], rest)
          rw [hv]
          rfl
        | cons q t2 =>
          obtain ⟨k2, v2⟩ := q
          have hv2s : serializable v2 = true := by
            have := hx.2
            simp only [serializableF, Bool.and_eq_true] at this
            exact this.1
          have hany := fields_any_not_undef k2 v2 t2 hv2s
          have hm2 : msizeF ((k2, v2) :: t2) ≤ g := by
            simp only [msizeF] at hm ⊢
            omega
          have hbt := ihF ((k2, v2) :: t2) rest hx.2 (by simp) hm2
          have hC : printFields ((k, v) :: (k2, v2) :: t2) ++ '\x7d' :: rest =
              '"' :: (escBody k.data ++ '"' ::
                (':' :: (printVal v ++ ',' ::
                  (printFields ((k2, v2) :: t2) ++ '\x7d' :: rest)))) := by
            rw [hpf, hany]
            simp
          rw [hC]
          have hv := ihV v (',' ::
            (printFields ((k2, v2) :: t2) ++ '\x7d' :: rest)) hx.1 rfl hmx
          show (match parseStr ((escBody k.data ++ '"' ::
              (':' :: (printVal v ++ ',' ::
                (printFields ((k2, v2) :: t2) ++ '\x7d' :: rest)))).length + 1)
              (escBody k.data ++ '"' :: (':' :: (printVal v ++ ',' ::
                (printFields ((k2, v2) :: t2) ++ '\x7d' :: rest)))) with
            | none => none
            | some (kk, r) =>
              match skipWs r with
              | [] => none
              | c2 :: r2 =>
                if c2 = ':' then
                  match parseVal g r2 with
                  | none => none
                  | some (vv, r3) =>
                    match skipWs r3 with
                    | [] => none
                    | c3 :: r4 =>
                      if c3 = ',' then
                        match parseFields g r4 with
                        | some (fs2, r5) => some ((⟨kk⟩, vv) :: fs2, r5)
                        | none => none
                      else if c3 = '\x7d' then some ([(⟨kk⟩, vv)], r4)
                      else none
                else none) = some ((k, v) :: (k2, v2) :: t2, rest)
          rw [parseStr_escBody k.data _ _ (by
            simp only [List.length_append, List.length_cons]
            omega)]
          show (match parseVal g (printVal v ++ ',' ::
              (printFields ((k2, v2) :: t2) ++ '\x7d' :: rest)) with
            | none => none
            | some (vv, r3) =>
              match skipWs r3 with
              | [] => none
              | c3 :: r4 =>
                if c3 = ',' then
                  match parseFields g r4 with
                  | some (fs2, r5) => some ((⟨k.data⟩, vv) :: fs2, r5)
                  | none => none
                else if c3 = '\x7d' then some ([(⟨k.data⟩, vv)], r4)
                else none) = some ((k, v) :: (k2, v2) :: t2, rest)
          rw [hv]
          show (match parseFields g
              (printFields ((k2, v2) :: t2) ++ '\x7d' :: rest) with
            | some (fs2, r5) => some ((⟨k.data⟩, v) :: fs2, r5)
            | none => none) = some ((k, v) :: (k2, v2) :: t2, rest)
          rw [hbt]

/-- JSON.parse inverts JSON.stringify on every serializable value of the
model. -/
theorem jsonParse_stringify (v : JSVal) (hs : serializable v = true) :
    jsonParse (stringify v) = some v := by
  have hb := (msize_le_bound (msize v)).1 v hs le_rfl
  have h := (parseRound (2 * (stringify v).length + 2)).1 v [] hs rfl (by
    have hlen : (stringify v).length = (printVal v).length := rfl
    omega)
  rw [List.append_nil] at h
  rw [jsonParse, show (stringify v).data = printVal v from rfl, h]
  rfl

/-! ## Claim C6: codec round trip -/

/-- C6 counterexample: the plain string 1 does not survive the round trip:
it encodes to itself and then decodes to the number 1, so the round-trip
property fails on plain strings that parse as JSON. -/
theorem c6_string_roundtrip_fails :
    decode (encode (.jsStr "1")) = .jsInt 1 ∧ JSVal.jsInt 1 ≠ JSVal.jsStr "1" :=
  ⟨rfl, fun h => JSVal.noConfusion h⟩

/-- C6 amended: decode inverts encode on every JSON-serializable value of
the model (null, booleans, integer numbers, and undefined-free arrays and
objects with distinct keys), and on every plain string that does not parse
as JSON; a string that parses as JSON is instead returned re-decoded. -/
theorem c6_roundtrip (v : JSVal) (hser : serializable v = true)
    (hstr : ∀ s, v = .jsStr s → jsonParse s = none) :
    decode (encode v) = v := by
  cases v with
  | jsUndef => exact absurd hser (by simp [serializable])
  | jsStr s =>
    rw [show encode (.jsStr s) = s from rfl, decode, hstr s rfl]
  | jsNull =>
    show decode (stringify .jsNull) = .jsNull
    rw [decode, jsonParse_stringify _ hser]
  | jsBool b =>
    cases b with
    | true =>
      show decode (stringify (.jsBool true)) = .jsBool true
      rw [decode, jsonParse_stringify _ hser]
    | false =>
      show decode (stringify (.jsBool false)) = .jsBool false
      rw [decode, jsonParse_stringify _ hser]
  | jsInt n =>
    show decode (stringify (.jsInt n)) = .jsInt n
    rw [decode, jsonParse_stringify _ hser]
  | jsArr xs =>
    show decode (stringify (.jsArr xs)) = .jsArr xs
    rw [decode, jsonParse_stringify _ hser]
  | jsObj fs =>
    show decode (stringify (.jsObj fs)) = .jsObj fs
    rw [decode, jsonParse_stringify _ hser]

/-- C6 witness: a nested object with string, boolean, null, and negative
number leaves survives the round trip. -/
theorem c6_roundtrip_witness :
    decode (encode (.jsObj [("a", .jsInt (-12)),
      ("b", .jsArr [.jsStr "x y", .jsBool true, .jsNull])])) =
      .jsObj [("a", .jsInt (-12)),
        ("b", .jsArr [.jsStr "x y", .jsBool true, .jsNull])] :=
  c6_roundtrip _ rfl (fun _ h => JSVal.noConfusion h)

end Coal
